import Mathlib

/-!
Verification of the adaptive partial-application engine of pytoolz/toolz
(src/toolz/functoolz.py): the `curry` wrapper, the call-shape classifiers
`is_valid_args` / `is_partial_args` / `has_varargs` / `num_required_args`
(which delegate to `inspect.Signature.bind` / `bind_partial`), structural
equality and hashing of curry objects, method-style receiver binding
(`curry.__get__`), and pickling (`curry.__reduce__` / `_restore_curry`).

Python callables are modelled by an explicit record carrying an optional
introspectable signature and a body function; the CPython 3.11
`inspect.Signature._bind` argument-binding algorithm is embedded directly
(functions `bindPos`, `bindKw`, `sigBind`).  The builtin-signature registry
module `toolz/_signatures.py` is not part of the given sources; its
classifier fallback is modelled from the spec as an optional
registry-provided signature that is simulated with the same binding
algorithm (field `regSig` below).
-/

/-- Parameter kinds of the Python calling convention
(`inspect.Parameter.kind`). -/
inductive PKind where
  | posOnly
  | posOrKw
  | varPos
  | kwOnly
  | varKw
deriving DecidableEq, Repr

/-- One formal parameter of a Python callable: name, kind, and whether a
default value is present (`default is not Parameter.empty`). -/
structure Param where
  name : String
  kind : PKind
  hasDefault : Bool
deriving DecidableEq, Repr

/-- A resolved signature: the ordered parameter list of
`inspect.Signature.parameters`. -/
abbrev Sig := List Param

/-- Python runtime values, as far as the claims need them: integers,
strings, None, and lists (which are unhashable). -/
inductive Val where
  | int (n : Int)
  | str (s : String)
  | pynone
  | list (xs : List Val)

mutual

/-- Decidable structural equality for values (Python `==` on these
types). -/
def Val.decEq : (a b : Val) → Decidable (a = b)
  | Val.int a, Val.int b =>
      if h : a = b then isTrue (h ▸ rfl)
      else isFalse (fun hh => h (Val.int.inj hh))
  | Val.str a, Val.str b =>
      if h : a = b then isTrue (h ▸ rfl)
      else isFalse (fun hh => h (Val.str.inj hh))
  | Val.pynone, Val.pynone => isTrue rfl
  | Val.list xs, Val.list ys =>
      match Val.decEqList xs ys with
      | isTrue h => isTrue (h ▸ rfl)
      | isFalse h => isFalse (fun hh => h (Val.list.inj hh))
  | Val.int _, Val.str _ => isFalse (fun h => Val.noConfusion h)
  | Val.int _, Val.pynone => isFalse (fun h => Val.noConfusion h)
  | Val.int _, Val.list _ => isFalse (fun h => Val.noConfusion h)
  | Val.str _, Val.int _ => isFalse (fun h => Val.noConfusion h)
  | Val.str _, Val.pynone => isFalse (fun h => Val.noConfusion h)
  | Val.str _, Val.list _ => isFalse (fun h => Val.noConfusion h)
  | Val.pynone, Val.int _ => isFalse (fun h => Val.noConfusion h)
  | Val.pynone, Val.str _ => isFalse (fun h => Val.noConfusion h)
  | Val.pynone, Val.list _ => isFalse (fun h => Val.noConfusion h)
  | Val.list _, Val.int _ => isFalse (fun h => Val.noConfusion h)
  | Val.list _, Val.str _ => isFalse (fun h => Val.noConfusion h)
  | Val.list _, Val.pynone => isFalse (fun h => Val.noConfusion h)

/-- Decidable equality for lists of values. -/
def Val.decEqList : (xs ys : List Val) → Decidable (xs = ys)
  | [], [] => isTrue rfl
  | [], _ :: _ => isFalse (fun h => List.noConfusion h)
  | _ :: _, [] => isFalse (fun h => List.noConfusion h)
  | x :: xs, y :: ys =>
      match Val.decEq x y, Val.decEqList xs ys with
      | isTrue h1, isTrue h2 => isTrue (by rw [h1, h2])
      | isFalse h1, _ => isFalse (fun hh => h1 (by injection hh))
      | _, isFalse h2 => isFalse (fun hh => h2 (by injection hh))

end

instance : DecidableEq Val := Val.decEq

/-- Outcome of executing a callable body: a returned value, a raised
TypeError, or some other raised exception. -/
inductive BodyResult where
  | val (v : Val)
  | typeError
  | exc

/-- Model of a Python callable.  `fid` is the object identity (Python
function equality `==` is identity for plain functions); `modname` and
`qualname` mirror `__module__` / `__qualname__` (empty string when absent);
`sig` is the introspectable signature (`Option.none` when
`inspect.signature` raises); `regSig` is the fallback signature stored in
the builtin registry `toolz._signatures` (modelled from the spec, see the
file header); `body` is the behaviour of the callable once the calling
convention has accepted the arguments. -/
structure PyFunc where
  fid : Nat
  modname : String
  qualname : String
  sig : Option Sig
  regSig : Option Sig
  body : List Val → List (String × Val) → BodyResult

/-- A Python exception value (type name and message), used only to show
that the currying decision ignores it. -/
structure PyExc where
  ty : String
  msg : String
deriving DecidableEq, Repr

/-- Keyword dictionaries are association lists with (invariantly) unique
keys, mirroring Python `dict` insertion order. -/
def kwLookup : List (String × Val) → String → Option Val
  | [], _ => Option.none
  | kv :: rest, k => if kv.1 = k then some kv.2 else kwLookup rest k

/-- Membership test on a keyword dictionary (`k in d`). -/
def kwHas (d : List (String × Val)) (k : String) : Bool :=
  (kwLookup d k).isSome

/-- Removal of a key (`d.pop(k)` on a dict with unique keys). -/
def kwErase (d : List (String × Val)) (k : String) : List (String × Val) :=
  d.filter (fun kv => kv.1 ≠ k)

/-- Python `dict(d1, **d2)` / `{**d1, **d2}`: keys of `d1` in order with
values overridden by `d2`, then the new keys of `d2` in order. -/
def dictUpdate (d1 d2 : List (String × Val)) : List (String × Val) :=
  (d1.map (fun kv =>
    match kwLookup d2 kv.1 with
    | some v => (kv.1, v)
    | Option.none => kv))
  ++ d2.filter (fun kv => ¬ kwHas d1 kv.1)

/-- Well-formedness of a keyword dictionary: keys occur at most once. -/
def nodupKeys (d : List (String × Val)) : Prop :=
  (d.map Prod.fst).Nodup

/-- Phase 1 of CPython 3.11 `inspect.Signature._bind`: consume the
positional arguments against the parameter list.  `pm` is the `partial`
flag (`bind_partial` versus `bind`).  Returns the parameter list left for
the keyword phase (`itertools.chain(parameters_ex, parameters)` in the
source), or `Option.none` when the simulation raises TypeError. -/
def bindPos (pm : Bool) (kwargs : List (String × Val)) :
    List Param → List Val → Option (List Param)
  | [], [] => some []
  | [], _ :: _ => Option.none
  | p :: rest, [] =>
      if p.kind = PKind.varPos then some rest
      else if kwHas kwargs p.name then
        if p.kind = PKind.posOnly then Option.none
        else some (p :: rest)
      else if p.kind = PKind.varKw ∨ p.hasDefault then some (p :: rest)
      else if pm then some (p :: rest)
      else Option.none
  | p :: rest, _ :: restArgs =>
      if p.kind = PKind.varKw ∨ p.kind = PKind.kwOnly then Option.none
      else if p.kind = PKind.varPos then some rest
      else if kwHas kwargs p.name ∧ p.kind ≠ PKind.posOnly then Option.none
      else bindPos pm kwargs rest restArgs

/-- Phase 2 of `inspect.Signature._bind`: walk the remaining parameters,
popping matching keyword arguments.  Returns whether a `**kwargs`
parameter was seen together with the keyword arguments left unconsumed,
or `Option.none` when the simulation raises TypeError. -/
def bindKw (pm : Bool) :
    List Param → List (String × Val) → Bool → Option (Bool × List (String × Val))
  | [], kwargs, hasVK => some (hasVK, kwargs)
  | p :: rest, kwargs, hasVK =>
      if p.kind = PKind.varKw then bindKw pm rest kwargs true
      else if p.kind = PKind.varPos then bindKw pm rest kwargs hasVK
      else
        match kwLookup kwargs p.name with
        | some _ =>
            if p.kind = PKind.posOnly then Option.none
            else bindKw pm rest (kwErase kwargs p.name) hasVK
        | Option.none =>
            if ¬ pm ∧ ¬ p.hasDefault then Option.none
            else bindKw pm rest kwargs hasVK

/-- `inspect.Signature.bind` (`pm = false`) and `bind_partial`
(`pm = true`), reduced to success or TypeError: the binding simulation of
CPython 3.11 `Signature._bind`. -/
def sigBind (pm : Bool) (s : Sig) (args : List Val)
    (kwargs : List (String × Val)) : Bool :=
  match bindPos pm kwargs s args with
  | Option.none => false
  | some rest =>
      match bindKw pm rest kwargs false with
      | Option.none => false
      | some (hasVK, remaining) => remaining.isEmpty || hasVK

/-- The signature the classifiers in functoolz.py end up simulating on:
the introspectable signature when present, otherwise the registry
fallback of `toolz._signatures` (modelled from the spec), otherwise
nothing, in which case every classifier answers Unknown (`Option.none`). -/
def classifierSig (f : PyFunc) : Option Sig :=
  match f.sig with
  | some s => some s
  | Option.none => f.regSig

/-- functoolz.py `is_valid_args`: would calling `f` with these arguments
satisfy the calling convention (`sigspec.bind`)?  Tri-state:
`Option.none` is Unknown. -/
def is_valid_args (f : PyFunc) (args : List Val)
    (kwargs : List (String × Val)) : Option Bool :=
  (classifierSig f).map (fun s => sigBind false s args kwargs)

/-- functoolz.py `is_partial_args`: could more arguments later make the
call valid (`sigspec.bind_partial`)?  Tri-state. -/
def is_partial_args (f : PyFunc) (args : List Val)
    (kwargs : List (String × Val)) : Option Bool :=
  (classifierSig f).map (fun s => sigBind true s args kwargs)

/-- functoolz.py `has_varargs`: does the callable declare a
var-positional parameter?  Tri-state. -/
def has_varargs (f : PyFunc) : Option Bool :=
  (classifierSig f).map (fun s => s.any (fun p => p.kind = PKind.varPos))

/-- functoolz.py `num_required_args`: number of parameters without a
default whose kind is positional. -/
def num_required_args (f : PyFunc) : Option Nat :=
  (classifierSig f).map (fun s =>
    (s.filter (fun p =>
      ¬ p.hasDefault ∧ (p.kind = PKind.posOrKw ∨ p.kind = PKind.posOnly))).length)

/-- Python truthiness of a tri-state classifier result: `None` and
`False` are falsy. -/
def pyTruthy : Option Bool → Bool
  | some b => b
  | Option.none => false

/-- The cached `curry._has_unknown_args`:
`has_varargs(func, sigspec) is not False`. -/
def hasUnknownArgs (f : PyFunc) : Bool :=
  has_varargs f ≠ some false

/-- The `curry` object: underlying callable plus accumulated positional
and keyword arguments (`self.func`, `self.args`, `self.keywords`, stored
through `self._partial`). -/
structure Curry where
  func : PyFunc
  args : List Val
  kwargs : List (String × Val)

/-- A functools.partial-like wrapper over a plain callable: anything for
which functoolz.py `is_partial_function` holds (it exposes `func`, `args`
and `keywords`). -/
structure PartialFn where
  func : PyFunc
  args : List Val
  keywords : List (String × Val)

/-- The callable handed to the `curry` constructor: a plain callable, an
existing curry object, or a functools.partial-like wrapper. -/
inductive CurryInput where
  | fn (f : PyFunc)
  | cur (c : Curry)
  | part (p : PartialFn)

/-- `curry.__init__`: a curry- or partial-like input is unpacked one
level and its stored arguments are merged in front of the new ones, the
new keywords winning on collision; a plain callable is stored as-is.
(The non-callable TypeError branch is outside the model: every
`CurryInput` is callable.) -/
def curryInit : CurryInput → List Val → List (String × Val) → Curry
  | CurryInput.fn f, args, kwargs => ⟨f, args, kwargs⟩
  | CurryInput.cur c, args, kwargs =>
      ⟨c.func, c.args ++ args, dictUpdate c.kwargs kwargs⟩
  | CurryInput.part p, args, kwargs =>
      ⟨p.func, p.args ++ args, dictUpdate p.keywords kwargs⟩

/-- `curry.bind`: `type(self)(self, *args, **kwargs)`. -/
def curryBind (c : Curry) (args : List Val)
    (kwargs : List (String × Val)) : Curry :=
  curryInit (CurryInput.cur c) args kwargs

/-- `curry._should_curry`: after `self.call` raised TypeError, decide
between accumulating (true) and propagating (false).  The exception
parameter is accepted and ignored, exactly as in the source
(`exc ... # noqa: ARG002`). -/
def shouldCurry (c : Curry) (args : List Val) (kwargs : List (String × Val))
    (exc : Option PyExc) : Bool :=
  let f := c.func
  let args := c.args ++ args
  let kwargs := if c.kwargs.isEmpty then kwargs else dictUpdate c.kwargs kwargs
  if is_partial_args f args kwargs = some false then
    false
  else if hasUnknownArgs f then
    true
  else if ¬ pyTruthy (is_valid_args f args kwargs) then
    true
  else
    false

/-- Direct invocation of a callable (what `self._partial(...)` does once
the arguments are combined): for an introspectable Python function the
interpreter checks the calling convention first — the bind simulation —
and only on success executes the body; an opaque callable performs its
own checking inside `body`.  The second component counts body
executions. -/
def invoke (f : PyFunc) (args : List Val)
    (kwargs : List (String × Val)) : BodyResult × Nat :=
  match f.sig with
  | some s =>
      if sigBind false s args kwargs then (f.body args kwargs, 1)
      else (BodyResult.typeError, 0)
  | Option.none => (f.body args kwargs, 1)

/-- Result of `curry.__call__`: a returned value, a new curry object, a
propagated TypeError, or a propagated non-TypeError exception. -/
inductive CallOutcome where
  | ret (v : Val)
  | curried (c : Curry)
  | raiseTypeError
  | raiseOther

/-- `curry.__call__`: try `self.call(*args, **kwargs)` (the stored
partial applied to the new arguments); on TypeError consult
`_should_curry` and either return `self.bind(*args, **kwargs)` or
re-raise; other exceptions propagate.  The second component counts
executions of the underlying body. -/
def curryCall (c : Curry) (args : List Val)
    (kwargs : List (String × Val)) : CallOutcome × Nat :=
  let r := invoke c.func (c.args ++ args) (dictUpdate c.kwargs kwargs)
  match r.1 with
  | BodyResult.val v => (CallOutcome.ret v, r.2)
  | BodyResult.exc => (CallOutcome.raiseOther, r.2)
  | BodyResult.typeError =>
      if shouldCurry c args kwargs (some ⟨"TypeError", ""⟩) then
        (CallOutcome.curried (curryBind c args kwargs), r.2)
      else
        (CallOutcome.raiseTypeError, r.2)

/-- `curry.__get__`: class access (`obj = None`) returns the object
itself; instance access returns `curry(self, instance)`. -/
def curryGet (c : Curry) (obj : Option Val) : Curry :=
  match obj with
  | Option.none => c
  | some inst => curryInit (CurryInput.cur c) [inst] []

/-- Python `hash` on values, as a deterministic model function:
`Option.none` means the value is unhashable and hashing raises TypeError
(lists are unhashable; integers, strings and None are hashable). -/
def pyHashV : Val → Option Int
  | Val.int n => some n
  | Val.str s => some (Int.ofNat s.length)
  | Val.pynone => some 0
  | Val.list _ => Option.none

/-- Hash of one `(key, value)` item of the keywords dict (keys are
strings, always hashable). -/
def hashPair (kv : String × Val) : Option Int :=
  (pyHashV kv.2).map (fun h => Int.ofNat kv.1.length + 31 * h)

/-- Hash of `frozenset(keywords.items())`: fails if any item is
unhashable (frozenset construction hashes its elements), and is
order-independent, modelled by summing the item hashes. -/
def frozensetHash (kws : List (String × Val)) : Option Int :=
  if kws.all (fun kv => (hashPair kv).isSome) then
    some ((kws.map (fun kv => (hashPair kv).getD 0)).sum)
  else Option.none

/-- `curry.__hash__`:
`hash((self.func, self.args, frozenset(self.keywords.items()) if self.keywords else None))`.
Functions hash by identity; the tuple hash fails iff a component is
unhashable.  The combining function is an arbitrary deterministic
model of the builtin tuple hash. -/
def curryHash (c : Curry) : Option Int :=
  let argsHash : Option Int :=
    if c.args.all (fun v => (pyHashV v).isSome) then
      some ((c.args.map (fun v => (pyHashV v).getD 0)).sum)
    else Option.none
  let kwHash : Option Int :=
    if c.kwargs.isEmpty then some 0 else frozensetHash c.kwargs
  match argsHash, kwHash with
  | some a, some k => some (Int.ofNat c.func.fid + 2 * a + 3 * k)
  | _, _ => Option.none

/-- Python `dict` equality on keyword dictionaries (order-insensitive:
same keys, equal values). -/
def dictEq (d1 d2 : List (String × Val)) : Bool :=
  d1.length = d2.length ∧ d1.all (fun kv => kwLookup d2 kv.1 = some kv.2)

/-- `curry.__eq__`: same underlying callable (Python function equality
is identity, `fid`), equal positional-argument tuples, equal keyword
dicts.  (Both sides are curry objects; the `isinstance` guard is
satisfied.) -/
def curryEq (c1 c2 : Curry) : Bool :=
  c1.func.fid = c2.func.fid ∧ c1.args = c2.args ∧ dictEq c1.kwargs c2.kwargs

/-- The serialized reference to the underlying callable in
`curry.__reduce__`: either the callable itself (left for the pickle
machinery) or a resolvable dotted path string. -/
inductive FuncRef where
  | inline (f : PyFunc)
  | path (s : String)

/-- An object reachable at a module attribute path: a plain function or
a curry object. -/
inductive EnvObj where
  | fn (f : PyFunc)
  | cur (c : Curry)

/-- The persisted state produced by `curry.__reduce__`:
`(func, args, kwargs, is_decorated)` (the class and instance dict are
not modelled). -/
structure CurryState where
  funcRef : FuncRef
  args : List Val
  kwargs : List (String × Val)
  isDecorated : Option Bool

/-- The importable module environment: `import_module` plus `getattr`
traversal is modelled as a lookup from a `module:qualname` string to the
object stored there together with its object identity. -/
structure ModuleEnv where
  resolve : String → Option (EnvObj × Nat)

/-- `curry.__reduce__`: when the underlying callable has a module and
qualified name and that path resolves to a curry object whose `func` is
this callable, persist the dotted path and record whether the resolved
object is this very object (`is_decorated = obj is self`); otherwise
persist the callable itself.  `selfOid` is the object identity of the
curry object being serialized. -/
def curryReduce (env : ModuleEnv) (c : Curry) (selfOid : Nat) : CurryState :=
  if c.func.modname = "" ∨ c.func.qualname = "" then
    ⟨FuncRef.inline c.func, c.args, c.kwargs, Option.none⟩
  else
    match env.resolve (c.func.modname ++ ":" ++ c.func.qualname) with
    | some (EnvObj.cur d, doid) =>
        if d.func.fid = c.func.fid then
          ⟨FuncRef.path (c.func.modname ++ ":" ++ c.func.qualname),
           c.args, c.kwargs, some (decide (doid = selfOid))⟩
        else ⟨FuncRef.inline c.func, c.args, c.kwargs, Option.none⟩
    | _ => ⟨FuncRef.inline c.func, c.args, c.kwargs, Option.none⟩

/-- `_restore_curry`: resolve a dotted path (failure to resolve is a
fatal deserialization error, `Option.none`); if the state was marked
`is_decorated`, return the resolved object unchanged, otherwise rebuild
`cls(obj.func, *args, **kwargs)` (taking `.func` of a plain function
raises AttributeError, also fatal). -/
def restoreCurry (env : ModuleEnv) (st : CurryState) : Option EnvObj :=
  match st.funcRef with
  | FuncRef.inline f => some (EnvObj.cur (curryInit (CurryInput.fn f) st.args st.kwargs))
  | FuncRef.path p =>
      match env.resolve p with
      | Option.none => Option.none
      | some (o, _) =>
          if st.isDecorated = some true then some o
          else
            match o with
            | EnvObj.cur d =>
                some (EnvObj.cur (curryInit (CurryInput.fn d.func) st.args st.kwargs))
            | EnvObj.fn _ => Option.none

/-- Body of a binary addition function `f(a, b) = a + b`: adds integers,
concatenates strings, and raises TypeError on mixed operand types such
as the string "x" plus the integer 2. -/
def addBody : List Val → List (String × Val) → BodyResult
  | [Val.int a, Val.int b], _ => BodyResult.val (Val.int (a + b))
  | [Val.str a, Val.str b], _ => BodyResult.val (Val.str (a ++ b))
  | _, _ => BodyResult.typeError

/-- The callable `f(a, b) = a + b` of the spec scenario, with an
introspectable two-parameter signature. -/
def addF : PyFunc :=
  { fid := 1
    modname := "m"
    qualname := "add"
    sig := some [⟨"a", PKind.posOrKw, false⟩, ⟨"b", PKind.posOrKw, false⟩]
    regSig := Option.none
    body := addBody }

/-- The curry object `curry(add)`. -/
def addCur : Curry := curryInit (CurryInput.fn addF) [] []

/-- A one-required-argument callable used in witnesses. -/
def oneArgF : PyFunc :=
  { fid := 2
    modname := "m"
    qualname := "one"
    sig := some [⟨"x", PKind.posOrKw, false⟩]
    regSig := Option.none
    body := fun args _ =>
      match args with
      | [v] => BodyResult.val v
      | _ => BodyResult.typeError }

/-- A curry object holding an unhashable bound argument (a list). -/
def unhashCur : Curry := ⟨addF, [Val.list [], Val.int 2], []⟩

/-- A curry object with a stored positional argument, used to refute the
claim that method access prepends the receiver in front of all bound
arguments. -/
def boundCur : Curry := ⟨addF, [Val.int 1], []⟩

/-- A module environment in which the attribute `m:add` holds the
decorated curry object `curry(add)` with object identity 10. -/
def envEx : ModuleEnv :=
  ⟨fun s => if s = "m:add" then some (EnvObj.cur addCur, 10) else Option.none⟩

theorem dictUpdate_nil_left (d : List (String × Val)) : dictUpdate [] d = d := by
  simp [dictUpdate, kwHas, kwLookup]

theorem dictUpdate_nil_right (d : List (String × Val)) : dictUpdate d [] = d := by
  simp [dictUpdate, kwLookup]

theorem bindPos_mono (kwargs : List (String × Val)) :
    ∀ (params : List Param) (args : List Val) (st : List Param),
    bindPos false kwargs params args = some st →
    bindPos true kwargs params args = some st := by
  intro params
  induction params with
  | nil =>
      intro args st h
      cases args <;> simp_all [bindPos]
  | cons p rest ih =>
      intro args st h
      cases args with
      | nil =>
          simp only [bindPos] at h ⊢
          split_ifs at h ⊢ <;> simp_all
      | cons a restArgs =>
          simp only [bindPos] at h ⊢
          split_ifs at h ⊢ <;> first
            | exact h
            | exact ih restArgs st h
            | simp_all

theorem bindKw_mono :
    ∀ (params : List Param) (kwargs : List (String × Val)) (hvk : Bool)
      (st : Bool × List (String × Val)),
    bindKw false params kwargs hvk = some st →
    bindKw true params kwargs hvk = some st := by
  intro params
  induction params with
  | nil => intro kwargs hvk st h; simpa [bindKw] using h
  | cons p rest ih =>
      intro kwargs hvk st h
      by_cases hvkw : p.kind = PKind.varKw
      · simp only [bindKw, if_pos hvkw] at h ⊢
        exact ih _ _ _ h
      · by_cases hvp : p.kind = PKind.varPos
        · simp only [bindKw, if_neg hvkw, if_pos hvp] at h ⊢
          exact ih _ _ _ h
        · simp only [bindKw, if_neg hvkw, if_neg hvp] at h ⊢
          cases hl : kwLookup kwargs p.name with
          | some v =>
              simp only [hl] at h ⊢
              by_cases hpo : p.kind = PKind.posOnly
              · simp only [if_pos hpo] at h
                exact Option.noConfusion h
              · simp only [if_neg hpo] at h ⊢
                exact ih _ _ _ h
          | none =>
              simp only [hl] at h ⊢
              by_cases hd : p.hasDefault
              · simp only [hd] at h ⊢
                simp at h ⊢
                exact ih _ _ _ h
              · simp only [Bool.not_eq_true] at hd
                simp [hd] at h

theorem sigBind_iff (pm : Bool) (s : Sig) (args : List Val)
    (kwargs : List (String × Val)) :
    sigBind pm s args kwargs = true ↔
    ∃ rest hasVK remaining,
      bindPos pm kwargs s args = some rest ∧
      bindKw pm rest kwargs false = some (hasVK, remaining) ∧
      (remaining.isEmpty || hasVK) = true := by
  cases h1 : bindPos pm kwargs s args with
  | none =>
      simp [sigBind, h1]
  | some rest =>
      cases h2 : bindKw pm rest kwargs false with
      | none => simp [sigBind, h1, h2]
      | some st =>
          cases st with
          | mk hasVK remaining => cases hasVK <;> simp [sigBind, h1, h2]

theorem sigBind_mono (s : Sig) (args : List Val) (kwargs : List (String × Val))
    (h : sigBind false s args kwargs = true) : sigBind true s args kwargs = true := by
  rw [sigBind_iff] at h ⊢
  obtain ⟨rest, hasVK, remaining, h1, h2, h3⟩ := h
  exact ⟨rest, hasVK, remaining, bindPos_mono kwargs s args rest h1,
    bindKw_mono rest kwargs false _ h2, h3⟩

theorem bindPos_strict_missing (tail : Sig) :
    ∀ (req : List Param) (args : List Val),
    (∀ p ∈ req, (p.kind = PKind.posOnly ∨ p.kind = PKind.posOrKw) ∧ p.hasDefault = false) →
    args.length < req.length →
    bindPos false [] (req ++ tail) args = Option.none := by
  intro req
  induction req with
  | nil => intro args h hlt; simp at hlt
  | cons p rest ih =>
      intro args hprops hlt
      obtain ⟨hk, hd⟩ := hprops p (by simp)
      cases args with
      | nil =>
          rcases hk with h1 | h1 <;>
            simp [bindPos, h1, hd, kwHas, kwLookup]
      | cons a restArgs =>
          have step : bindPos false [] ((p :: rest) ++ tail) (a :: restArgs) =
              bindPos false [] (rest ++ tail) restArgs := by
            rcases hk with h1 | h1 <;>
              simp [bindPos, h1, kwHas, kwLookup]
          rw [step]
          exact ih restArgs (fun q hq => hprops q (by simp [hq]))
            (by simpa using Nat.lt_of_succ_lt_succ hlt)

theorem bindPos_partial_short (tail : Sig) :
    ∀ (req : List Param) (args : List Val),
    (∀ p ∈ req, (p.kind = PKind.posOnly ∨ p.kind = PKind.posOrKw) ∧ p.hasDefault = false) →
    args.length < req.length →
    ∃ rest, bindPos true [] (req ++ tail) args = some rest := by
  intro req
  induction req with
  | nil => intro args h hlt; simp at hlt
  | cons p rest ih =>
      intro args hprops hlt
      obtain ⟨hk, hd⟩ := hprops p (by simp)
      cases args with
      | nil =>
          refine ⟨(p :: rest) ++ tail, ?_⟩
          rcases hk with h1 | h1 <;>
            simp [bindPos, h1, hd, kwHas, kwLookup]
      | cons a restArgs =>
          have step : bindPos true [] ((p :: rest) ++ tail) (a :: restArgs) =
              bindPos true [] (rest ++ tail) restArgs := by
            rcases hk with h1 | h1 <;>
              simp [bindPos, h1, kwHas, kwLookup]
          rw [step]
          exact ih restArgs (fun q hq => hprops q (by simp [hq]))
            (by simpa using Nat.lt_of_succ_lt_succ hlt)

theorem bindKw_partial_emptyKw :
    ∀ (params : List Param) (hvk : Bool),
    ∃ b, bindKw true params [] hvk = some (b, []) := by
  intro params
  induction params with
  | nil => intro hvk; exact ⟨hvk, rfl⟩
  | cons p rest ih =>
      intro hvk
      by_cases h1 : p.kind = PKind.varKw
      · simpa [bindKw, h1] using ih true
      · by_cases h2 : p.kind = PKind.varPos
        · simpa [bindKw, h1, h2] using ih hvk
        · simpa [bindKw, h1, h2, kwLookup] using ih hvk

theorem bindPos_consume (pm : Bool) (tail : Sig) :
    ∀ (req : List Param) (args : List Val),
    (∀ p ∈ req, p.kind = PKind.posOnly ∨ p.kind = PKind.posOrKw) →
    args.length = req.length →
    bindPos pm [] (req ++ tail) args = bindPos pm [] tail [] := by
  intro req
  induction req with
  | nil =>
      intro args h hlen
      cases args with
      | nil => rfl
      | cons _ _ => simp at hlen
  | cons p rest ih =>
      intro args hprops hlen
      cases args with
      | nil => simp at hlen
      | cons a restArgs =>
          have step : bindPos pm [] ((p :: rest) ++ tail) (a :: restArgs) =
              bindPos pm [] (rest ++ tail) restArgs := by
            rcases hprops p (by simp) with h1 | h1 <;>
              simp [bindPos, h1, kwHas, kwLookup]
          rw [step]
          exact ih restArgs (fun q hq => hprops q (by simp [hq])) (by simpa using hlen)

theorem bindPos_defaults_empty (pm : Bool) (tail : Sig)
    (h : ∀ p ∈ tail, p.kind ≠ PKind.varPos ∧ (p.kind ≠ PKind.varKw → p.hasDefault = true)) :
    bindPos pm [] tail [] = some tail := by
  cases tail with
  | nil => rfl
  | cons p rest =>
      obtain ⟨hvp, hdef⟩ := h p (by simp)
      by_cases hvk : p.kind = PKind.varKw
      · simp [bindPos, hvp, hvk, kwHas, kwLookup]
      · have hd := hdef hvk
        simp [bindPos, hvp, hvk, hd, kwHas, kwLookup]

theorem bindKw_strict_defaults :
    ∀ (params : List Param) (hvk : Bool),
    (∀ p ∈ params, p.kind ≠ PKind.varPos ∧ (p.kind ≠ PKind.varKw → p.hasDefault = true)) →
    ∃ b, bindKw false params [] hvk = some (b, []) := by
  intro params
  induction params with
  | nil => intro hvk _; exact ⟨hvk, rfl⟩
  | cons p rest ih =>
      intro hvk h
      obtain ⟨hvp, hdef⟩ := h p (by simp)
      have hrest : ∀ q ∈ rest,
          q.kind ≠ PKind.varPos ∧ (q.kind ≠ PKind.varKw → q.hasDefault = true) :=
        fun q hq => h q (by simp [hq])
      by_cases hvkw : p.kind = PKind.varKw
      · simpa [bindKw, hvkw] using ih true hrest
      · have hd := hdef hvkw
        simpa [bindKw, hvkw, hvp, hd, kwLookup] using ih hvk hrest

theorem sigBind_strict_short (req tail : Sig) (args : List Val)
    (hreq : ∀ p ∈ req, (p.kind = PKind.posOnly ∨ p.kind = PKind.posOrKw) ∧ p.hasDefault = false)
    (hlt : args.length < req.length) :
    sigBind false (req ++ tail) args [] = false := by
  simp [sigBind, bindPos_strict_missing tail req args hreq hlt]

theorem sigBind_partial_short (req tail : Sig) (args : List Val)
    (hreq : ∀ p ∈ req, (p.kind = PKind.posOnly ∨ p.kind = PKind.posOrKw) ∧ p.hasDefault = false)
    (hlt : args.length < req.length) :
    sigBind true (req ++ tail) args [] = true := by
  rw [sigBind_iff]
  obtain ⟨rest, h1⟩ := bindPos_partial_short tail req args hreq hlt
  obtain ⟨b, h2⟩ := bindKw_partial_emptyKw rest false
  exact ⟨rest, b, [], h1, h2, by simp⟩

theorem sigBind_strict_exact (req tail : Sig) (args : List Val)
    (hreq : ∀ p ∈ req, (p.kind = PKind.posOnly ∨ p.kind = PKind.posOrKw) ∧ p.hasDefault = false)
    (htail : ∀ p ∈ tail, p.kind ≠ PKind.varPos ∧ (p.kind ≠ PKind.varKw → p.hasDefault = true))
    (hlen : args.length = req.length) :
    sigBind false (req ++ tail) args [] = true := by
  rw [sigBind_iff]
  have h1 : bindPos false [] (req ++ tail) args = some tail := by
    rw [bindPos_consume false tail req args (fun p hp => (hreq p hp).1) hlen]
    exact bindPos_defaults_empty false tail htail
  obtain ⟨b, h2⟩ := bindKw_strict_defaults tail false htail
  exact ⟨tail, b, [], h1, h2, by simp⟩

theorem anyVarPos_false (req tail : Sig)
    (hreq : ∀ p ∈ req, p.kind = PKind.posOnly ∨ p.kind = PKind.posOrKw)
    (htail : ∀ p ∈ tail, p.kind ≠ PKind.varPos) :
    ((req ++ tail).any (fun p => p.kind = PKind.varPos)) = false := by
  rw [List.any_eq_false]
  intro p hp
  rcases List.mem_append.mp hp with hm | hm
  · rcases hreq p hm with h1 | h1 <;> simp [h1]
  · simp [htail p hm]

theorem kwLookup_some_mem :
    ∀ (d : List (String × Val)) (k : String) (v : Val),
    kwLookup d k = some v → (k, v) ∈ d := by
  intro d
  induction d with
  | nil => intro k v h; simp [kwLookup] at h
  | cons kv rest ih =>
      intro k v h
      by_cases he : kv.1 = k
      · rw [kwLookup, if_pos he] at h
        have hkv : kv = (k, v) := by
          rw [Prod.ext_iff]
          exact ⟨he, Option.some.inj h⟩
        rw [hkv]
        exact List.mem_cons_self _ _
      · rw [kwLookup, if_neg he] at h
        exact List.mem_cons_of_mem _ (ih k v h)

theorem kwLookup_of_mem_nodup :
    ∀ (d : List (String × Val)) (k : String) (v : Val),
    nodupKeys d → (k, v) ∈ d → kwLookup d k = some v := by
  intro d
  induction d with
  | nil => intro k v _ h; simp at h
  | cons kv rest ih =>
      intro k v hnd hm
      simp only [nodupKeys, List.map_cons, List.nodup_cons] at hnd
      rcases List.mem_cons.mp hm with he | hm2
      · have h1 : kv.1 = k := by rw [← he]
        have h2 : kv.2 = v := by rw [← he]
        rw [kwLookup, if_pos h1, h2]
      · have hne : kv.1 ≠ k := by
          intro hk
          exact hnd.1 (by rw [hk]; exact List.mem_map_of_mem Prod.fst hm2)
        rw [kwLookup, if_neg hne]
        exact ih k v hnd.2 hm2

theorem kwLookup_isSome_iff :
    ∀ (d : List (String × Val)) (k : String),
    (kwLookup d k).isSome = true ↔ k ∈ d.map Prod.fst := by
  intro d
  induction d with
  | nil => intro k; simp [kwLookup]
  | cons kv rest ih =>
      intro k
      by_cases he : kv.1 = k
      · simp [kwLookup, he]
      · have hne : ¬ k = kv.1 := fun h => he h.symm
        simp [kwLookup, he, ih k, hne]

theorem dictEq_lookup_eq (d1 d2 : List (String × Val))
    (h1 : nodupKeys d1) (h2 : nodupKeys d2)
    (he : dictEq d1 d2 = true) :
    ∀ k, kwLookup d1 k = kwLookup d2 k := by
  simp only [dictEq, decide_eq_true_eq, Bool.and_eq_true, List.all_eq_true] at he
  obtain ⟨hlen, hall⟩ := he
  have hlen2 : d1.length = d2.length := by simpa using hlen
  have hall2 : ∀ kv ∈ d1, kwLookup d2 kv.1 = some kv.2 := by
    intro kv hm
    have := hall kv hm
    simpa using this
  intro k
  cases hl : kwLookup d1 k with
  | some v =>
      have hm := kwLookup_some_mem d1 k v hl
      exact (hall2 (k, v) hm).symm
  | none =>
      cases hl2 : kwLookup d2 k with
      | none => rfl
      | some w =>
          exfalso
          have hsub : (d1.map Prod.fst).toFinset ⊆ (d2.map Prod.fst).toFinset := by
            intro x hx
            rw [List.mem_toFinset] at hx ⊢
            rw [← kwLookup_isSome_iff] at hx ⊢
            cases hx2 : kwLookup d1 x with
            | none => rw [hx2] at hx; simp at hx
            | some u =>
                rw [hall2 (x, u) (kwLookup_some_mem d1 x u hx2)]
                rfl
          have hcard : (d2.map Prod.fst).toFinset.card ≤ (d1.map Prod.fst).toFinset.card := by
            rw [List.toFinset_card_of_nodup h1, List.toFinset_card_of_nodup h2]
            simp [hlen2]
          have heqset := Finset.eq_of_subset_of_card_le hsub hcard
          have hk2 : k ∈ (d2.map Prod.fst).toFinset := by
            rw [List.mem_toFinset, ← kwLookup_isSome_iff, hl2]
            rfl
          rw [← heqset, List.mem_toFinset, ← kwLookup_isSome_iff, hl] at hk2
          simp at hk2

theorem lookup_eq_dictEq (d1 d2 : List (String × Val))
    (h1 : nodupKeys d1) (h2 : nodupKeys d2)
    (hp : ∀ k, kwLookup d1 k = kwLookup d2 k) :
    dictEq d1 d2 = true := by
  have hkeys : ∀ k, k ∈ d1.map Prod.fst ↔ k ∈ d2.map Prod.fst := by
    intro k
    rw [← kwLookup_isSome_iff, ← kwLookup_isSome_iff, hp k]
  have hperm : (d1.map Prod.fst).Perm (d2.map Prod.fst) :=
    (List.perm_ext_iff_of_nodup h1 h2).mpr hkeys
  have hlen : d1.length = d2.length := by
    have := hperm.length_eq
    simpa using this
  simp only [dictEq, decide_eq_true_eq, Bool.and_eq_true, List.all_eq_true]
  refine ⟨by simpa using hlen, ?_⟩
  intro kv hm
  have := kwLookup_of_mem_nodup d1 kv.1 kv.2 h1 (by simpa using hm)
  rw [hp kv.1] at this
  simpa using this

theorem dictEq_perm (d1 d2 : List (String × Val))
    (h1 : nodupKeys d1) (h2 : nodupKeys d2)
    (he : dictEq d1 d2 = true) : d1.Perm d2 := by
  have hp := dictEq_lookup_eq d1 d2 h1 h2 he
  have n1 : d1.Nodup := List.Nodup.of_map Prod.fst h1
  have n2 : d2.Nodup := List.Nodup.of_map Prod.fst h2
  rw [List.perm_ext_iff_of_nodup n1 n2]
  intro kv
  constructor
  · intro hm
    have := kwLookup_of_mem_nodup d1 kv.1 kv.2 h1 (by simpa using hm)
    rw [hp kv.1] at this
    simpa using kwLookup_some_mem d2 kv.1 kv.2 this
  · intro hm
    have := kwLookup_of_mem_nodup d2 kv.1 kv.2 h2 (by simpa using hm)
    rw [← hp kv.1] at this
    simpa using kwLookup_some_mem d1 kv.1 kv.2 this

theorem frozensetHash_perm {d1 d2 : List (String × Val)} (h : d1.Perm d2) :
    frozensetHash d1 = frozensetHash d2 := by
  unfold frozensetHash
  have hall : d1.all (fun kv => (hashPair kv).isSome) =
      d2.all (fun kv => (hashPair kv).isSome) := by
    rw [Bool.eq_iff_iff, List.all_eq_true, List.all_eq_true]
    exact ⟨fun hh kv hm => hh kv (h.mem_iff.mpr hm),
           fun hh kv hm => hh kv (h.mem_iff.mp hm)⟩
  rw [hall, (h.map (fun kv => (hashPair kv).getD 0)).sum_eq]

/-- Claim C10: for a fixed curry object and fixed call arguments, the
accumulate-versus-propagate decision of `_should_curry` is identical for
any two exceptions that triggered it — the decision depends only on the
callable, the combined arguments and the resolved signature, never on the
exception, whose parameter the classifier ignores. -/
theorem shouldCurry_ignores_exception (c : Curry) (args : List Val)
    (kwargs : List (String × Val)) (e1 e2 : Option PyExc) :
    shouldCurry c args kwargs e1 = shouldCurry c args kwargs e2 := rfl

/-- Claim C2: constructing a curry object from an existing curry object
(or any partial-application-like wrapper) flattens one level — the
underlying callable is the original target, positional arguments are the
inner arguments followed by the outer ones, and keyword arguments are
merged with the outer call winning; consequently
`curry(curry(f, a), b)` equals `curry(f, a, b)` structurally, hence also
in call behaviour. -/
theorem curry_flatten (f : PyFunc) (as1 as2 callArgs : List Val)
    (kw1 kw2 callKw : List (String × Val)) (p : PartialFn) :
    curryInit (CurryInput.cur (curryInit (CurryInput.fn f) as1 kw1)) as2 kw2 =
      curryInit (CurryInput.fn f) (as1 ++ as2) (dictUpdate kw1 kw2)
    ∧ curryInit (CurryInput.part p) as2 kw2 =
      ⟨p.func, p.args ++ as2, dictUpdate p.keywords kw2⟩
    ∧ curryCall
        (curryInit (CurryInput.cur (curryInit (CurryInput.fn f) as1 kw1)) as2 kw2)
        callArgs callKw =
      curryCall (curryInit (CurryInput.fn f) (as1 ++ as2) (dictUpdate kw1 kw2))
        callArgs callKw :=
  ⟨rfl, rfl, rfl⟩

/-- Claim C9 (counterexample): accessing a curry object that already
holds a bound positional argument through an owning instance does not
put the receiver in front of the bound arguments — it is appended after
them, so the claimed prepend equation fails. -/
theorem curryGet_prepend_counterexample :
    ¬ ((curryGet boundCur (some (Val.int 5))).args = Val.int 5 :: boundCur.args) := by
  decide

/-- Claim C9 (amended): instance access on a curry object produces a new
curry object over the same underlying target whose positional arguments
are the stored ones with the receiver appended after them — hence the
receiver is the first positional argument exactly when no arguments were
stored; keyword arguments and the target function are unchanged. -/
theorem curryGet_appends_receiver (c : Curry) (obj : Val) :
    curryGet c (some obj) = ⟨c.func, c.args ++ [obj], c.kwargs⟩ := by
  simp [curryGet, curryInit, dictUpdate_nil_right]

/-- Claim C5: for every callable, argument tuple and keyword mapping, if
`is_valid_args` answers True then `is_partial_args` answers True as well
— the partial-call classifier is monotonically weaker than the
valid-call classifier. -/
theorem is_valid_args_implies_is_partial_args (f : PyFunc) (args : List Val)
    (kwargs : List (String × Val))
    (h : is_valid_args f args kwargs = some true) :
    is_partial_args f args kwargs = some true := by
  unfold is_valid_args at h
  unfold is_partial_args
  cases hc : classifierSig f with
  | none => rw [hc] at h; simp at h
  | some s =>
      rw [hc] at h
      simpa using sigBind_mono s args kwargs (by simpa using h)

/-- Witness for claim C5 at a concrete callable and call shape. -/
theorem is_valid_args_implies_is_partial_args_witness :
    is_partial_args oneArgF [Val.int 1] [] = some true :=
  is_valid_args_implies_is_partial_args oneArgF [Val.int 1] [] rfl

/-- Claim C8: hashing a curry object holding at least one unhashable
bound argument (positional or keyword) fails, and the failure
propagates as an error rather than being converted to a fallback hash
value. -/
theorem curry_hash_unhashable_fails (c : Curry)
    (h : (∃ v ∈ c.args, pyHashV v = Option.none) ∨
         (∃ kv ∈ c.kwargs, pyHashV kv.2 = Option.none)) :
    curryHash c = Option.none := by
  unfold curryHash
  rcases h with ⟨v, hm, hv⟩ | ⟨kv, hm, hv⟩
  · have hall : c.args.all (fun v => (pyHashV v).isSome) = false := by
      rw [List.all_eq_false]
      exact ⟨v, hm, by simp [hv]⟩
    simp [hall]
  · have hne : c.kwargs.isEmpty = false := by
      cases hk : c.kwargs with
      | nil => rw [hk] at hm; simp at hm
      | cons _ _ => simp
    have hfz : frozensetHash c.kwargs = Option.none := by
      unfold frozensetHash
      have hall : c.kwargs.all (fun kv => (hashPair kv).isSome) = false := by
        rw [List.all_eq_false]
        exact ⟨kv, hm, by simp [hashPair, hv]⟩
      simp [hall]
    by_cases ha : c.args.all (fun v => (pyHashV v).isSome)
    · simp [ha, hne, hfz]
    · simp [ha, hne, hfz]

/-- Witness for claim C8: the curry object with a bound list argument
hashes to an error. -/
theorem curry_hash_unhashable_fails_witness :
    curryHash unhashCur = Option.none :=
  curry_hash_unhashable_fails unhashCur
    (Or.inl ⟨Val.list [], by simp [unhashCur], rfl⟩)

/-- Claim C3: for every callable with a fixed required arity (no
var-positional parameter, `req.length` required positional parameters,
every other parameter optional-by-kind or defaulted-positional), calling
`curry(f)` with fewer than the required number of positional arguments
and no keyword arguments never executes the body (the invocation count
is 0) and returns a new curry object holding those arguments;
`num_required_args` reports exactly that arity. -/
theorem curry_underapplication_accumulates (f : PyFunc) (req tail : List Param)
    (args : List Val)
    (hsig : f.sig = some (req ++ tail))
    (hreq : ∀ p ∈ req, (p.kind = PKind.posOnly ∨ p.kind = PKind.posOrKw) ∧
      p.hasDefault = false)
    (htail : ∀ p ∈ tail, p.kind ≠ PKind.varPos ∧
      ((p.kind = PKind.posOnly ∨ p.kind = PKind.posOrKw) → p.hasDefault = true))
    (hlt : args.length < req.length) :
    curryCall (curryInit (CurryInput.fn f) [] []) args [] =
      (CallOutcome.curried ⟨f, args, []⟩, 0) ∧
    num_required_args f = some req.length := by
  have hva : (req ++ tail).any (fun p => p.kind = PKind.varPos) = false :=
    anyVarPos_false req tail (fun p hp => (hreq p hp).1) (fun p hp => (htail p hp).1)
  have hsb : sigBind false (req ++ tail) args [] = false :=
    sigBind_strict_short req tail args hreq hlt
  have hsp : sigBind true (req ++ tail) args [] = true :=
    sigBind_partial_short req tail args hreq hlt
  constructor
  · simp [curryCall, curryInit, invoke, hsig, dictUpdate_nil_left, hsb,
      shouldCurry, is_partial_args, is_valid_args, classifierSig, hasUnknownArgs,
      has_varargs, hsp, hva, pyTruthy, curryBind]
  · simp only [num_required_args, classifierSig, hsig, Option.map_some']
    have h1 : (req.filter (fun p =>
        decide (¬ p.hasDefault = true ∧ (p.kind = PKind.posOrKw ∨ p.kind = PKind.posOnly)))) = req := by
      rw [List.filter_eq_self]
      intro p hp
      obtain ⟨hk, hd⟩ := hreq p hp
      rcases hk with h | h <;> simp [h, hd]
    have h2 : (tail.filter (fun p =>
        decide (¬ p.hasDefault = true ∧ (p.kind = PKind.posOrKw ∨ p.kind = PKind.posOnly)))) = [] := by
      rw [List.filter_eq_nil_iff]
      intro p hp
      obtain ⟨hvp, hdef⟩ := htail p hp
      by_cases hk : p.kind = PKind.posOrKw ∨ p.kind = PKind.posOnly
      · have hd : p.hasDefault = true := hdef (by tauto)
        simp [hd]
      · simp [hk]
    rw [List.filter_append, h1, h2]
    simp

/-- Claim C4: for every callable with a fixed required arity (no
var-positional parameter, `req.length` required positional parameters,
all remaining parameters defaulted or a var-keyword), calling `curry(f)`
with exactly that many positional arguments executes the body exactly
once, and when the body returns a value that value is returned to the
caller. -/
theorem curry_exact_application_invokes_once (f : PyFunc) (req tail : List Param)
    (args : List Val)
    (hsig : f.sig = some (req ++ tail))
    (hreq : ∀ p ∈ req, (p.kind = PKind.posOnly ∨ p.kind = PKind.posOrKw) ∧
      p.hasDefault = false)
    (htail : ∀ p ∈ tail, p.kind ≠ PKind.varPos ∧
      (p.kind ≠ PKind.varKw → p.hasDefault = true))
    (hlen : args.length = req.length) :
    (curryCall (curryInit (CurryInput.fn f) [] []) args []).2 = 1 ∧
    ∀ v, f.body args [] = BodyResult.val v →
      curryCall (curryInit (CurryInput.fn f) [] []) args [] = (CallOutcome.ret v, 1) := by
  have hsb : sigBind false (req ++ tail) args [] = true :=
    sigBind_strict_exact req tail args hreq htail hlen
  constructor
  · cases hb : f.body args [] with
    | val v =>
        simp [curryCall, curryInit, invoke, hsig, dictUpdate_nil_left, hsb, hb]
    | typeError =>
        simp only [curryCall, curryInit, invoke, hsig, dictUpdate_nil_left, hsb,
          List.nil_append, if_true, hb]
        split <;> rfl
    | exc =>
        simp [curryCall, curryInit, invoke, hsig, dictUpdate_nil_left, hsb, hb]
  · intro v hv
    simp [curryCall, curryInit, invoke, hsig, dictUpdate_nil_left, hsb, hv]

/-- Witness for claim C3: `curry(add)` called with one of two required
arguments accumulates without running the body. -/
theorem curry_underapplication_accumulates_witness :
    curryCall (curryInit (CurryInput.fn addF) [] []) [Val.int 1] [] =
      (CallOutcome.curried ⟨addF, [Val.int 1], []⟩, 0) ∧
    num_required_args addF = some 2 := by
  have h := curry_underapplication_accumulates addF
    [⟨"a", PKind.posOrKw, false⟩, ⟨"b", PKind.posOrKw, false⟩] [] [Val.int 1]
    rfl (by decide) (by decide) (by decide)
  simpa using h

/-- Witness for claim C4: `curry(add)` called with both required
arguments runs the body once and returns 3. -/
theorem curry_exact_application_invokes_once_witness :
    curryCall (curryInit (CurryInput.fn addF) [] []) [Val.int 1, Val.int 2] [] =
      (CallOutcome.ret (Val.int 3), 1) :=
  (curry_exact_application_invokes_once addF
    [⟨"a", PKind.posOrKw, false⟩, ⟨"b", PKind.posOrKw, false⟩] []
    [Val.int 1, Val.int 2] rfl (by decide) (by decide) (by decide)).2
    (Val.int 3) rfl

/-- Claim C1: whenever the direct invocation of the underlying callable
with the combined arguments raises TypeError, `curry.__call__` decides
in this order on the combined arguments: if `is_partial_args` is False
the error propagates; else if the variadic status is Unknown or True a
new curry object with the combined arguments is returned; else if
`is_valid_args` is falsy a new curry object is returned; otherwise the
error propagates.  In particular `curry(add)` applied to the string "x"
and the integer 2 runs the body once and re-raises its TypeError. -/
theorem curryCall_decision_order :
    (∀ (c : Curry) (args : List Val) (kwargs : List (String × Val)),
      (invoke c.func (c.args ++ args) (dictUpdate c.kwargs kwargs)).1 =
        BodyResult.typeError →
      (curryCall c args kwargs).1 =
        (if is_partial_args c.func (c.args ++ args)
              (if c.kwargs.isEmpty then kwargs else dictUpdate c.kwargs kwargs) =
            some false then
          CallOutcome.raiseTypeError
        else if hasUnknownArgs c.func then
          CallOutcome.curried (curryBind c args kwargs)
        else if ¬ pyTruthy (is_valid_args c.func (c.args ++ args)
              (if c.kwargs.isEmpty then kwargs else dictUpdate c.kwargs kwargs)) then
          CallOutcome.curried (curryBind c args kwargs)
        else CallOutcome.raiseTypeError))
    ∧ (curryCall addCur [Val.str "x", Val.int 2] []).1 = CallOutcome.raiseTypeError
    ∧ (curryCall addCur [Val.str "x", Val.int 2] []).2 = 1 := by
  refine ⟨?_, rfl, rfl⟩
  intro c args kwargs h
  have hc : (curryCall c args kwargs).1 =
      if shouldCurry c args kwargs (some ⟨"TypeError", ""⟩) then
        CallOutcome.curried (curryBind c args kwargs)
      else CallOutcome.raiseTypeError := by
    simp only [curryCall, h]
    split <;> rfl
  rw [hc]
  simp only [shouldCurry]
  split_ifs <;> simp_all

/-- Witness for claim C1: a one-argument callable called with no
arguments fails the calling convention (body never runs), and the
decision procedure accumulates. -/
theorem curryCall_decision_order_witness :
    (curryCall (curryInit (CurryInput.fn oneArgF) [] []) [] []).1 =
      CallOutcome.curried (curryBind (curryInit (CurryInput.fn oneArgF) [] []) [] []) := by
  have h := curryCall_decision_order.1 (curryInit (CurryInput.fn oneArgF) [] []) [] [] rfl
  simpa using h

/-- Claim C6: for a serializable (importable, named) binary callable
with one bound argument, deserializing the serialized curry object and
applying it to a second argument yields the result of the underlying
function on both arguments; deserialization distinguishes the decorated
object itself (`is_decorated` true: the resolved module attribute is
returned directly) from a nested binding built by calling it
(`is_decorated` false: the resolved target is re-wrapped with the
persisted arguments). -/
theorem curry_pickle_roundtrip (f : PyFunc) (a b r : Val) (n1 n2 : String)
    (cOid dOid : Nat) (env : ModuleEnv)
    (hsig : f.sig = some [⟨n1, PKind.posOrKw, false⟩, ⟨n2, PKind.posOrKw, false⟩])
    (hmod : f.modname ≠ "")
    (hqual : f.qualname ≠ "")
    (henv : env.resolve (f.modname ++ ":" ++ f.qualname) =
      some (EnvObj.cur (curryInit (CurryInput.fn f) [] []), dOid))
    (hoid : dOid ≠ cOid)
    (hbody : f.body [a, b] [] = BodyResult.val r) :
    restoreCurry env
        (curryReduce env (curryInit (CurryInput.fn f) [a] []) cOid) =
      some (EnvObj.cur ⟨f, [a], []⟩) ∧
    curryCall ⟨f, [a], []⟩ [b] [] = (CallOutcome.ret r, 1) ∧
    restoreCurry env
        (curryReduce env (curryInit (CurryInput.fn f) [] []) dOid) =
      some (EnvObj.cur (curryInit (CurryInput.fn f) [] [])) := by
  have hpath : ¬ (f.modname = "" ∨ f.qualname = "") := by tauto
  refine ⟨?_, ?_, ?_⟩
  · simp [curryReduce, restoreCurry, hpath, henv, hoid, curryInit]
  · have hsb : sigBind false
        [⟨n1, PKind.posOrKw, false⟩, ⟨n2, PKind.posOrKw, false⟩] [a, b] [] = true := rfl
    have hup : dictUpdate ([] : List (String × Val)) [] = [] := rfl
    simp [curryCall, invoke, hsig, hup, hsb, hbody]
  · simp [curryReduce, restoreCurry, hpath, henv, curryInit]

/-- Witness for claim C6 at the concrete module environment `envEx`:
a nested binding of the decorated `add` round-trips and computes 1 + 2,
and the decorated object itself is restored as the resolved attribute. -/
theorem curry_pickle_roundtrip_witness :
    restoreCurry envEx
        (curryReduce envEx (curryInit (CurryInput.fn addF) [Val.int 1] []) 3) =
      some (EnvObj.cur ⟨addF, [Val.int 1], []⟩) ∧
    curryCall ⟨addF, [Val.int 1], []⟩ [Val.int 2] [] =
      (CallOutcome.ret (Val.int 3), 1) ∧
    restoreCurry envEx
        (curryReduce envEx (curryInit (CurryInput.fn addF) [] []) 10) =
      some (EnvObj.cur (curryInit (CurryInput.fn addF) [] [])) :=
  curry_pickle_roundtrip addF (Val.int 1) (Val.int 2) (Val.int 3) "a" "b" 3 10 envEx
    rfl (by decide) (by decide) rfl (by decide) rfl

/-- Claim C7: two curry objects compare equal exactly when they have the
same underlying callable identity, the same bound positional-argument
sequence and the same bound keyword set (pointwise equal lookups); and
equal curry objects have equal hashes (unequal ones may collide but
compare unequal, the contrapositive of the iff). -/
theorem curry_eq_iff_hash_consistent (c1 c2 : Curry)
    (h1 : nodupKeys c1.kwargs) (h2 : nodupKeys c2.kwargs) :
    (curryEq c1 c2 = true ↔
      (c1.func.fid = c2.func.fid ∧ c1.args = c2.args ∧
       ∀ k, kwLookup c1.kwargs k = kwLookup c2.kwargs k)) ∧
    (curryEq c1 c2 = true → curryHash c1 = curryHash c2) := by
  have hiff : curryEq c1 c2 = true ↔
      (c1.func.fid = c2.func.fid ∧ c1.args = c2.args ∧
       dictEq c1.kwargs c2.kwargs = true) := by
    simp [curryEq]
  constructor
  · rw [hiff]
    constructor
    · rintro ⟨ha, hb, hc⟩
      exact ⟨ha, hb, dictEq_lookup_eq _ _ h1 h2 hc⟩
    · rintro ⟨ha, hb, hc⟩
      exact ⟨ha, hb, lookup_eq_dictEq _ _ h1 h2 hc⟩
  · rw [hiff]
    rintro ⟨ha, hb, hc⟩
    have hperm := dictEq_perm _ _ h1 h2 hc
    have hlen : c1.kwargs.length = c2.kwargs.length := hperm.length_eq
    have hemp : c1.kwargs.isEmpty = c2.kwargs.isEmpty := by
      cases hk1 : c1.kwargs <;> cases hk2 : c2.kwargs <;> simp_all
    unfold curryHash
    rw [ha, hb, hemp, frozensetHash_perm hperm]

/-- Witness for claim C7: a curry object with a keyword binding is equal
to itself and hashes consistently. -/
theorem curry_eq_iff_hash_consistent_witness :
    curryHash (Curry.mk addF [Val.int 1] [("k", Val.int 2)]) =
      curryHash (Curry.mk addF [Val.int 1] [("k", Val.int 2)]) :=
  (curry_eq_iff_hash_consistent
    (Curry.mk addF [Val.int 1] [("k", Val.int 2)])
    (Curry.mk addF [Val.int 1] [("k", Val.int 2)])
    (by simp [nodupKeys]) (by simp [nodupKeys])).2 (by decide)
